import Mathlib

/-!
Verification of the event-driven backtesting framework core
(`src/core/event_engine.py`, `src/core/portfolio.py`,
`src/core/execution.py`, `src/core/strategy.py`,
`src/core/data_handler.py`) against its natural-language specification.

Python floats are embedded as exact rationals (`ℚ`), Python `int` as `ℤ`
or `ℕ`, and Python `dict` (insertion-ordered, update-in-place) as
association lists without duplicate keys.  Randomness (slippage and
latency draws) is threaded explicitly as parameters.  The floating-point
`sqrt` used by the strategy's standard deviation is abstracted as an
explicit function parameter `sqrtFn : ℚ → ℚ`.
-/

namespace Backtest

/-- Looks a key up in an association list (Python `d[k]` / `k in d`). -/
def alookup {α : Type} : List (String × α) → String → Option α
  | [], _ => none
  | (k, v) :: rest, key => if k = key then some v else alookup rest key

/-- Inserts or updates a key in an association list, preserving the
position of an existing key, as Python dict assignment does. -/
def ainsert {α : Type} : List (String × α) → String → α → List (String × α)
  | [], k, v => [(k, v)]
  | (k0, v0) :: rest, k, v =>
      if k0 = k then (k0, v) :: rest else (k0, v0) :: ainsert rest k v

/-- Sum of the values of an association list (Python `sum(d.values())`). -/
def sumValues (l : List (String × ℚ)) : ℚ :=
  (l.map Prod.snd).sum

@[simp] theorem alookup_ainsert_self {α : Type} (l : List (String × α)) (k : String) (v : α) :
    alookup (ainsert l k v) k = some v := by
  induction l with
  | nil => simp [ainsert, alookup]
  | cons hd tl ih =>
      obtain ⟨k0, v0⟩ := hd
      by_cases h : k0 = k <;> simp [ainsert, alookup, h, ih]

theorem alookup_ainsert_ne {α : Type} (l : List (String × α)) (k k' : String) (v : α)
    (h : k ≠ k') : alookup (ainsert l k v) k' = alookup l k' := by
  induction l with
  | nil => simp [ainsert, alookup, h]
  | cons hd tl ih =>
      obtain ⟨k0, v0⟩ := hd
      by_cases h0 : k0 = k
      · subst h0
        simp [ainsert, alookup, h]
      · simp only [ainsert, if_neg h0]
        by_cases h1 : k0 = k' <;> simp [alookup, h1, ih]

/-!
Event model.  Modelled from the spec: the repository imports
`core.event` (event kinds, `SignalType`, `OrderType` and the four event
record types) but `src/core/event.py` itself is not present in the
sources; the fields below follow the data-model table of the spec (§3)
and the constructor calls throughout the source.
-/

/-- Event kinds, as dispatched on by the event engine. -/
inductive EventType
  | MARKET | SIGNAL | ORDER | FILL
deriving DecidableEq, Repr

/-- Signal directions emitted by strategies. -/
inductive SignalType
  | LONG | SHORT | EXIT
deriving DecidableEq, Repr

/-- Order flavours understood by the execution simulator. -/
inductive OrderType
  | MARKET | LIMIT
deriving DecidableEq, Repr

/-- Trade direction, the `'BUY'` / `'SELL'` strings of the source. -/
inductive Direction
  | BUY | SELL
deriving DecidableEq, Repr

/-- Market bar event: OHLCV data for one symbol at one timestamp. -/
structure MarketEvent where
  timestamp : ℚ
  symbol : String
  opn : ℚ
  high : ℚ
  low : ℚ
  close : ℚ
  volume : ℚ
deriving DecidableEq, Repr

/-- Strategy signal event. -/
structure SignalEvent where
  timestamp : ℚ
  symbol : String
  signal_type : SignalType
  strength : ℚ
deriving DecidableEq, Repr

/-- Order event produced by the portfolio. -/
structure OrderEvent where
  timestamp : ℚ
  symbol : String
  order_type : OrderType
  quantity : ℤ
  direction : Direction
deriving DecidableEq, Repr

/-- Fill event produced by the execution simulator. -/
structure FillEvent where
  timestamp : ℚ
  symbol : String
  quantity : ℤ
  direction : Direction
  fill_price : ℚ
  commission : ℚ
  slippage : ℚ
deriving DecidableEq, Repr

/-- An event is one of the four kinds. -/
inductive Event
  | market (e : MarketEvent)
  | signal (e : SignalEvent)
  | order (e : OrderEvent)
  | fill (e : FillEvent)
deriving DecidableEq, Repr

/-- Discriminating tag of an event (the `event.event_type` field). -/
def Event.etype : Event → EventType
  | .market _ => .MARKET
  | .signal _ => .SIGNAL
  | .order _ => .ORDER
  | .fill _ => .FILL

/-!
Portfolio (`src/core/portfolio.py`, class `Portfolio`).
-/

/-- Trade record appended to `Portfolio.trades` by `process_fill`. -/
structure TradeRecord where
  timestamp : ℚ
  symbol : String
  direction : Direction
  quantity : ℤ
  price : ℚ
  commission : ℚ
  slippage : ℚ
deriving DecidableEq, Repr

/-- State of the `Portfolio` class. -/
structure Portfolio where
  initial_capital : ℚ
  current_capital : ℚ
  positions : List (String × ℤ)
  holdings : List (String × ℚ)
  equity_curve : List (ℚ × ℚ)
  trades : List TradeRecord
  current_prices : List (String × ℚ)
deriving DecidableEq, Repr

/-- Constructor `Portfolio.__init__`. -/
def Portfolio.init (initial_capital : ℚ) : Portfolio :=
  { initial_capital := initial_capital
    current_capital := initial_capital
    positions := []
    holdings := []
    equity_curve := []
    trades := []
    current_prices := [] }

/-- Method `Portfolio.update_market_price`: records the latest price,
marks existing positions to market, and appends one equity-curve entry. -/
def update_market_price (p : Portfolio) (symbol : String) (price : ℚ) (timestamp : ℚ) :
    Portfolio :=
  let current_prices := ainsert p.current_prices symbol price
  let holdings :=
    match alookup p.positions symbol with
    | some q => ainsert p.holdings symbol ((q : ℚ) * price)
    | none => p.holdings
  let total_equity := p.current_capital + sumValues holdings
  { p with
    current_prices := current_prices
    holdings := holdings
    equity_curve := p.equity_curve ++ [(timestamp, total_equity)] }

/-- Method `Portfolio.process_fill`: updates positions and cash from a
fill, re-marks the symbol's holding when a price is known, and logs the
trade. -/
def process_fill (p : Portfolio) (e : FillEvent) : Portfolio :=
  let positions0 :=
    match alookup p.positions e.symbol with
    | some _ => p.positions
    | none => ainsert p.positions e.symbol 0
  let oldq := (alookup positions0 e.symbol).getD 0
  let positions :=
    if e.direction = Direction.BUY then ainsert positions0 e.symbol (oldq + e.quantity)
    else ainsert positions0 e.symbol (oldq - e.quantity)
  let current_capital :=
    if e.direction = Direction.BUY then
      p.current_capital - (e.fill_price * (e.quantity : ℚ) + e.commission)
    else
      p.current_capital + (e.fill_price * (e.quantity : ℚ) - e.commission)
  let holdings :=
    match alookup p.current_prices e.symbol with
    | some pr => ainsert p.holdings e.symbol (((alookup positions e.symbol).getD 0 : ℚ) * pr)
    | none => p.holdings
  { p with
    positions := positions
    current_capital := current_capital
    holdings := holdings
    trades := p.trades ++
      [{ timestamp := e.timestamp, symbol := e.symbol, direction := e.direction,
         quantity := e.quantity, price := e.fill_price, commission := e.commission,
         slippage := e.slippage }] }

/-- Truncation toward zero, the behaviour of Python `int()` on a float;
on a reduced rational, `Int.tdiv` of the numerator by the denominator
computes exactly that. -/
def truncQ (q : ℚ) : ℤ :=
  Int.tdiv q.num (q.den : ℤ)

/-- Position size computed by `Portfolio.process_signal`:
`int((current_capital * 0.1 * strength) / current_prices.get(symbol, 100))`. -/
def positionSize (p : Portfolio) (e : SignalEvent) : ℤ :=
  truncQ ((p.current_capital * (1/10) * e.strength) /
    ((alookup p.current_prices e.symbol).getD 100))

/-- Method `Portfolio.process_signal`: computes a position size from the
signal strength, returns early when it is zero, and otherwise emits at
most one order (LONG → BUY of the size, SHORT → SELL of the size,
EXIT → SELL of the whole currently held positive position).  The
portfolio fields are never assigned; the returned orders are the events
`put_event` enqueues. -/
def process_signal (p : Portfolio) (e : SignalEvent) : Portfolio × List OrderEvent :=
  let position_size := positionSize p e
  if position_size = 0 then (p, [])
  else
    match e.signal_type with
    | SignalType.LONG =>
        (p, [{ timestamp := e.timestamp, symbol := e.symbol,
               order_type := OrderType.MARKET, quantity := position_size,
               direction := Direction.BUY }])
    | SignalType.SHORT =>
        (p, [{ timestamp := e.timestamp, symbol := e.symbol,
               order_type := OrderType.MARKET, quantity := position_size,
               direction := Direction.SELL }])
    | SignalType.EXIT =>
        match alookup p.positions e.symbol with
        | some q =>
            if 0 < q then
              (p, [{ timestamp := e.timestamp, symbol := e.symbol,
                     order_type := OrderType.MARKET, quantity := q,
                     direction := Direction.SELL }])
            else (p, [])
        | none => (p, [])

/-- Method `Portfolio.get_total_equity`. -/
def get_total_equity (p : Portfolio) : ℚ :=
  p.current_capital + sumValues p.holdings

end Backtest

namespace Backtest

/-!
Portfolio operation sequences, for stating state invariants (claim C1).
-/

/-- Ledger-mutating portfolio operation. -/
inductive PortfolioOp
  | updatePrice (symbol : String) (price : ℚ) (timestamp : ℚ)
  | fillOp (e : FillEvent)
deriving DecidableEq, Repr

/-- Applies one portfolio operation. -/
def applyOp (p : Portfolio) : PortfolioOp → Portfolio
  | .updatePrice s pr ts => update_market_price p s pr ts
  | .fillOp e => process_fill p e

/-- Runs a sequence of portfolio operations from a fresh portfolio. -/
def runOps (c : ℚ) (ops : List PortfolioOp) : Portfolio :=
  ops.foldl applyOp (Portfolio.init c)

/-- Every holding is marked to the last known price of its symbol
(absent map entries read as zero, as in the Python dicts). -/
def HoldingsMarked (p : Portfolio) : Prop :=
  ∀ s pr, alookup p.current_prices s = some pr →
    (alookup p.holdings s).getD 0 = ((alookup p.positions s).getD 0 : ℚ) * pr

/-- A symbol can have a holdings entry only if it has a positions entry. -/
def HoldingsSub (p : Portfolio) : Prop :=
  ∀ s, alookup p.positions s = none → alookup p.holdings s = none

/-- Combined ledger invariant maintained by all portfolio operations. -/
def LedgerInv (p : Portfolio) : Prop :=
  HoldingsMarked p ∧ HoldingsSub p

theorem ledgerInv_init (c : ℚ) : LedgerInv (Portfolio.init c) := by
  constructor
  · intro s pr h
    simp [Portfolio.init, alookup] at h
  · intro s _
    simp [Portfolio.init, alookup]

theorem ledgerInv_update (p : Portfolio) (s : String) (pr ts : ℚ) (h : LedgerInv p) :
    LedgerInv (update_market_price p s pr ts) := by
  obtain ⟨hm, hs⟩ := h
  unfold update_market_price
  cases hpos : alookup p.positions s with
  | some q =>
      refine ⟨?_, ?_⟩
      · intro s' pr' hp'
        simp only [hpos] at hp' ⊢
        by_cases he : s = s'
        · subst he
          rw [alookup_ainsert_self] at hp'
          cases hp'
          simp [alookup_ainsert_self, hpos]
        · rw [alookup_ainsert_ne _ _ _ _ he] at hp'
          simp only [alookup_ainsert_ne _ _ _ _ he]
          exact hm s' pr' hp'
      · intro s' hp'
        simp only [hpos] at hp' ⊢
        have he : s ≠ s' := by
          intro hcon
          subst hcon
          rw [hpos] at hp'
          exact Option.noConfusion hp'
        rw [alookup_ainsert_ne _ _ _ _ he]
        exact hs s' hp'
  | none =>
      refine ⟨?_, ?_⟩
      · intro s' pr' hp'
        simp only [hpos] at hp' ⊢
        by_cases he : s = s'
        · subst he
          rw [alookup_ainsert_self] at hp'
          cases hp'
          rw [hs s hpos, hpos]
          simp
        · rw [alookup_ainsert_ne _ _ _ _ he] at hp'
          exact hm s' pr' hp'
      · intro s' hp'
        simp only [hpos] at hp' ⊢
        exact hs s' hp'

end Backtest

namespace Backtest

theorem ledgerInv_fill (p : Portfolio) (e : FillEvent) (h : LedgerInv p) :
    LedgerInv (process_fill p e) := by
  obtain ⟨hm, hs⟩ := h
  have hsym : ∃ nq : ℤ, alookup (process_fill p e).positions e.symbol = some nq := by
    cases hpos : alookup p.positions e.symbol <;>
      by_cases hdir : e.direction = Direction.BUY <;>
        simp [process_fill, hpos, hdir, alookup_ainsert_self]
  have hposne : ∀ s', e.symbol ≠ s' →
      alookup (process_fill p e).positions s' = alookup p.positions s' := by
    intro s' he
    cases hpos : alookup p.positions e.symbol <;>
      by_cases hdir : e.direction = Direction.BUY <;>
        simp [process_fill, hpos, hdir, alookup_ainsert_ne _ _ _ _ he]
  have holdne : ∀ s', e.symbol ≠ s' →
      alookup (process_fill p e).holdings s' = alookup p.holdings s' := by
    intro s' he
    cases hpr : alookup p.current_prices e.symbol <;>
      simp [process_fill, hpr, alookup_ainsert_ne _ _ _ _ he]
  constructor
  · intro s' pr' hp'
    replace hp' : alookup p.current_prices s' = some pr' := hp'
    by_cases he : e.symbol = s'
    · subst he
      simp only [process_fill, hp', alookup_ainsert_self, Option.getD_some]
    · rw [hposne s' he, holdne s' he]
      exact hm s' pr' hp'
  · intro s' hp'
    have he : e.symbol ≠ s' := by
      intro hcon
      obtain ⟨nq, hnq⟩ := hsym
      rw [hcon] at hnq
      rw [hnq] at hp'
      exact Option.noConfusion hp'
    rw [holdne s' he]
    exact hs s' (by rw [← hposne s' he]; exact hp')

theorem ledgerInv_applyOp (p : Portfolio) (op : PortfolioOp) (h : LedgerInv p) :
    LedgerInv (applyOp p op) := by
  cases op with
  | updatePrice s pr ts => exact ledgerInv_update p s pr ts h
  | fillOp e => exact ledgerInv_fill p e h

theorem ledgerInv_foldl (ops : List PortfolioOp) (p : Portfolio) (h : LedgerInv p) :
    LedgerInv (ops.foldl applyOp p) := by
  induction ops generalizing p with
  | nil => exact h
  | cons op rest ih => exact ih _ (ledgerInv_applyOp p op h)

theorem ledgerInv_runOps (c : ℚ) (ops : List PortfolioOp) : LedgerInv (runOps c ops) :=
  ledgerInv_foldl ops _ (ledgerInv_init c)

theorem equity_entries_applyOp (p : Portfolio) (op : PortfolioOp) :
    ∀ entry ∈ (applyOp p op).equity_curve.drop p.equity_curve.length,
      entry.2 = (applyOp p op).current_capital + sumValues (applyOp p op).holdings := by
  cases op with
  | updatePrice s pr ts =>
      intro entry hentry
      have hcurve : (applyOp p (.updatePrice s pr ts)).equity_curve
          = p.equity_curve ++
            [(ts, p.current_capital
              + sumValues (update_market_price p s pr ts).holdings)] := rfl
      rw [hcurve, List.drop_left] at hentry
      have hentry2 : entry
          = (ts, p.current_capital + sumValues (update_market_price p s pr ts).holdings) := by
        simpa using hentry
      subst hentry2
      rfl
  | fillOp e =>
      intro entry hentry
      have hcurve : (applyOp p (.fillOp e)).equity_curve = p.equity_curve := rfl
      rw [hcurve, List.drop_length] at hentry
      exact absurd hentry (List.not_mem_nil _)

/-- C1: after every sequence of portfolio operations (`update_market_price`,
`process_fill`), every symbol with a recorded last price has
`holdings[s] = positions[s] * last_known_price[s]` (absent dict entries
reading as zero), and every equity-curve entry appended by an operation of
the run equals `current_capital + Σ holdings.values()` of the portfolio
state at the moment the entry is recorded. -/
theorem c1_ledger_invariant (c : ℚ) (ops : List PortfolioOp) :
    (∀ s pr, alookup (runOps c ops).current_prices s = some pr →
      (alookup (runOps c ops).holdings s).getD 0
        = ((alookup (runOps c ops).positions s).getD 0 : ℚ) * pr) ∧
    (∀ pre op suf, ops = pre ++ op :: suf →
      ∀ entry ∈ (applyOp (runOps c pre) op).equity_curve.drop
          (runOps c pre).equity_curve.length,
        entry.2 = (applyOp (runOps c pre) op).current_capital
          + sumValues (applyOp (runOps c pre) op).holdings) := by
  constructor
  · exact (ledgerInv_runOps c ops).1
  · intro pre op suf _
    exact equity_entries_applyOp (runOps c pre) op

/-- Witness for C1 at a concrete one-operation run. -/
theorem c1_ledger_invariant_witness :
    ((alookup (runOps 1000 [PortfolioOp.updatePrice "A" 10 0]).holdings "A").getD 0
      = ((alookup (runOps 1000 [PortfolioOp.updatePrice "A" 10 0]).positions "A").getD 0 : ℚ)
        * 10) ∧
    (((0 : ℚ), (1000 : ℚ)).2
      = (applyOp (runOps 1000 []) (PortfolioOp.updatePrice "A" 10 0)).current_capital
        + sumValues (applyOp (runOps 1000 []) (PortfolioOp.updatePrice "A" 10 0)).holdings) :=
  ⟨(c1_ledger_invariant 1000 [PortfolioOp.updatePrice "A" 10 0]).1 "A" 10 (by decide),
   (c1_ledger_invariant 1000 [PortfolioOp.updatePrice "A" 10 0]).2
     [] (PortfolioOp.updatePrice "A" 10 0) [] rfl ((0 : ℚ), (1000 : ℚ))
     (by norm_num [runOps, Portfolio.init, applyOp, update_market_price, sumValues,
       alookup])⟩

end Backtest

namespace Backtest

/-!
Basic facts about `process_signal`, `process_fill` and `truncQ`, shared
by several claims.
-/

theorem process_signal_fst (p : Portfolio) (e : SignalEvent) :
    (process_signal p e).1 = p := by
  unfold process_signal
  by_cases h0 : positionSize p e = 0
  · simp [h0]
  · cases hst : e.signal_type
    · simp [h0, hst]
    · simp [h0, hst]
    · cases hpos : alookup p.positions e.symbol with
      | none => simp [h0, hst, hpos]
      | some q => by_cases hq : 0 < q <;> simp [h0, hst, hpos, hq]

theorem process_signal_orders_shape (p : Portfolio) (e : SignalEvent) :
    (process_signal p e).2 = [] ∨ ∃ o, (process_signal p e).2 = [o] := by
  unfold process_signal
  by_cases h0 : positionSize p e = 0
  · simp [h0]
  · cases hst : e.signal_type
    · simp [h0, hst]
    · simp [h0, hst]
    · cases hpos : alookup p.positions e.symbol with
      | none => simp [h0, hst, hpos]
      | some q => by_cases hq : 0 < q <;> simp [h0, hst, hpos, hq]

theorem process_fill_equity (p : Portfolio) (e : FillEvent) :
    (process_fill p e).equity_curve = p.equity_curve := rfl

theorem update_equity_len (p : Portfolio) (s : String) (pr ts : ℚ) :
    (update_market_price p s pr ts).equity_curve.length = p.equity_curve.length + 1 := by
  simp [update_market_price]

theorem process_fill_positions_self (p : Portfolio) (e : FillEvent) :
    alookup (process_fill p e).positions e.symbol
      = some ((alookup p.positions e.symbol).getD 0
          + (if e.direction = Direction.BUY then e.quantity else - e.quantity)) := by
  cases hpos : alookup p.positions e.symbol <;>
    by_cases hdir : e.direction = Direction.BUY <;>
      simp [process_fill, hpos, hdir, alookup_ainsert_self, sub_eq_add_neg]

theorem truncQ_eq_floor_of_nonneg (q : ℚ) (h : 0 ≤ q) : truncQ q = ⌊q⌋ := by
  rw [truncQ, Rat.floor_def]
  exact Int.tdiv_eq_ediv (Rat.num_nonneg.mpr h) (Int.natCast_nonneg _)

/-- C10: `process_signal` leaves the whole portfolio ledger unchanged —
cash, positions, holdings, equity curve, trade log and price cache are
identical before and after — and its only effect is emitting at most one
order event for the engine queue. -/
theorem c10_process_signal_frame (p : Portfolio) (e : SignalEvent) :
    (process_signal p e).1.current_capital = p.current_capital ∧
    (process_signal p e).1.positions = p.positions ∧
    (process_signal p e).1.holdings = p.holdings ∧
    (process_signal p e).1.equity_curve = p.equity_curve ∧
    (process_signal p e).1.trades = p.trades ∧
    (process_signal p e).1.current_prices = p.current_prices ∧
    (process_signal p e).2.length ≤ 1 := by
  have h1 := process_signal_fst p e
  refine ⟨by rw [h1], by rw [h1], by rw [h1], by rw [h1], by rw [h1], by rw [h1], ?_⟩
  rcases process_signal_orders_shape p e with h | ⟨o, h⟩ <;> simp [h]

/-- C7: a BUY fill of q units at price pr with zero commission followed by a
SELL fill of q units at the same price with zero commission restores both the
cash balance and the position in that symbol to their values before the two
fills. -/
theorem c7_round_trip (p : Portfolio) (s : String) (q : ℤ) (pr ts1 ts2 sl1 sl2 : ℚ) :
    (process_fill (process_fill p ⟨ts1, s, q, Direction.BUY, pr, 0, sl1⟩)
        ⟨ts2, s, q, Direction.SELL, pr, 0, sl2⟩).current_capital = p.current_capital ∧
    (alookup (process_fill (process_fill p ⟨ts1, s, q, Direction.BUY, pr, 0, sl1⟩)
        ⟨ts2, s, q, Direction.SELL, pr, 0, sl2⟩).positions s).getD 0
      = (alookup p.positions s).getD 0 := by
  constructor
  · show p.current_capital - (pr * (q : ℚ) + 0) + (pr * (q : ℚ) - 0) = p.current_capital
    ring
  · rw [process_fill_positions_self (process_fill p ⟨ts1, s, q, Direction.BUY, pr, 0, sl1⟩)
      ⟨ts2, s, q, Direction.SELL, pr, 0, sl2⟩]
    rw [process_fill_positions_self p ⟨ts1, s, q, Direction.BUY, pr, 0, sl1⟩]
    simp

end Backtest


namespace Backtest

/-- Portfolio used by the C2 counterexample: it holds 5 units of "A". -/
def c2Portfolio : Portfolio :=
  { initial_capital := 1000, current_capital := 1000, positions := [("A", 5)],
    holdings := [("A", 50)], equity_curve := [], trades := [],
    current_prices := [("A", 10)] }

/-- C2 counterexample: a portfolio that holds 5 units of "A" receives an EXIT
signal of strength 0; the claim demands exactly one SELL order for the whole
position whenever a positive position is held, but `process_signal` emits no
order because the computed position size is 0 and the method returns before
reaching the EXIT branch. -/
theorem c2_exit_counterexample :
    0 < (alookup c2Portfolio.positions "A").getD 0 ∧
    (process_signal c2Portfolio ⟨0, "A", SignalType.EXIT, 0⟩).2 = [] := by
  constructor
  · decide
  · have hsize : positionSize c2Portfolio ⟨0, "A", SignalType.EXIT, 0⟩ = 0 := by
      unfold positionSize truncQ
      norm_num [alookup, c2Portfolio]
    simp [process_signal, hsize]

/-- C2 amended: provided the position size computed from the signal strength is
nonzero (the method returns early on size 0, also for EXIT signals), an EXIT
signal emits exactly one SELL order for the entire currently held positive
position; otherwise — when the computed size is 0 (even with a positive
position held) or when no positive position is held — it emits no order; and
an EXIT never emits a BUY order. -/
theorem c2_exit_amended (p : Portfolio) (e : SignalEvent)
    (hty : e.signal_type = SignalType.EXIT) :
    (positionSize p e ≠ 0 → 0 < (alookup p.positions e.symbol).getD 0 →
      (process_signal p e).2
        = [{ timestamp := e.timestamp, symbol := e.symbol,
             order_type := OrderType.MARKET,
             quantity := (alookup p.positions e.symbol).getD 0,
             direction := Direction.SELL }]) ∧
    (positionSize p e = 0 → (process_signal p e).2 = []) ∧
    ((alookup p.positions e.symbol).getD 0 ≤ 0 → (process_signal p e).2 = []) ∧
    (∀ o ∈ (process_signal p e).2, o.direction = Direction.SELL) := by
  by_cases h0 : positionSize p e = 0
  · refine ⟨fun hs _ => absurd h0 hs, fun _ => ?_, fun _ => ?_, fun o ho => ?_⟩
    · simp [process_signal, h0]
    · simp [process_signal, h0]
    · simp [process_signal, h0] at ho
  · cases hpos : alookup p.positions e.symbol with
    | none =>
        refine ⟨fun _ hq => ?_, fun hs => absurd hs h0, fun _ => ?_, fun o ho => ?_⟩
        · simp [hpos] at hq
        · simp [process_signal, h0, hty, hpos]
        · simp [process_signal, h0, hty, hpos] at ho
    | some q =>
        by_cases hq : 0 < q
        · refine ⟨fun _ _ => ?_, fun hs => absurd hs h0, fun hle => ?_, fun o ho => ?_⟩
          · simp [process_signal, h0, hty, hpos, hq]
          · simp [hpos] at hle
            omega
          · simp [process_signal, h0, hty, hpos, hq] at ho
            rw [ho]
        · refine ⟨fun _ hq2 => ?_, fun hs => absurd hs h0, fun _ => ?_, fun o ho => ?_⟩
          · simp [hpos] at hq2
            omega
          · simp [process_signal, h0, hty, hpos, hq]
          · simp [process_signal, h0, hty, hpos, hq] at ho

/-- Portfolio used by the C2 witness: it holds 7 units of "A". -/
def c2WitnessPortfolio : Portfolio :=
  { initial_capital := 1000, current_capital := 1000, positions := [("A", 7)],
    holdings := [], equity_curve := [], trades := [], current_prices := [] }

/-- Witness for the amended C2 at a concrete portfolio holding 7 units: a
strength-1 EXIT liquidates the whole position and a strength-0 EXIT (size 0)
emits nothing despite the positive position. -/
theorem c2_exit_amended_witness :
    ((process_signal c2WitnessPortfolio ⟨0, "A", SignalType.EXIT, 1⟩).2
      = [{ timestamp := 0, symbol := "A", order_type := OrderType.MARKET,
           quantity := 7, direction := Direction.SELL }]) ∧
    (process_signal c2WitnessPortfolio ⟨0, "A", SignalType.EXIT, 0⟩).2 = [] := by
  constructor
  · have h := (c2_exit_amended c2WitnessPortfolio ⟨0, "A", SignalType.EXIT, 1⟩ rfl).1
      (by unfold positionSize truncQ; norm_num [alookup, c2WitnessPortfolio]) (by decide)
    simpa [alookup, c2WitnessPortfolio] using h
  · exact (c2_exit_amended c2WitnessPortfolio ⟨0, "A", SignalType.EXIT, 0⟩ rfl).2.1
      (by unfold positionSize truncQ; norm_num [alookup, c2WitnessPortfolio])

end Backtest

namespace Backtest

/-- C3 counterexample: cash may be negative (shorting and leverage are not
prevented, and any initial capital is accepted by the constructor).  On a
fresh portfolio with capital −500, a LONG signal of strength 1 gives quotient
−1/2: floor makes the size −1, nonzero, so the claim demands a BUY order of
that size, but the code's int() truncation gives 0 and nothing is emitted. -/
theorem c3_floor_counterexample :
    ⌊((Portfolio.init (-500)).current_capital * (1/10) * 1)
        / ((alookup (Portfolio.init (-500)).current_prices "A").getD 100)⌋ = -1 ∧
    (process_signal (Portfolio.init (-500)) ⟨0, "A", SignalType.LONG, 1⟩).2 = [] := by
  constructor
  · norm_num [Portfolio.init, alookup]
  · have hsize : positionSize (Portfolio.init (-500)) ⟨0, "A", SignalType.LONG, 1⟩ = 0 := by
      unfold positionSize truncQ
      norm_num [alookup, Portfolio.init]
      decide
    simp [process_signal, hsize]

/-- C3 amended: the position size is the truncation toward zero (Python
`int()`) of `cash × 0.1 × strength / last_price[symbol]` with default price
100 when the symbol has no recorded price — this coincides with floor
whenever the quotient is nonnegative; size 0 emits no order; a LONG signal
with nonzero size emits one BUY order of that size and a SHORT signal with
nonzero size emits one SELL order of that size. -/
theorem c3_sizing_amended (p : Portfolio) (e : SignalEvent) :
    positionSize p e
      = truncQ ((p.current_capital * (1/10) * e.strength)
          / ((alookup p.current_prices e.symbol).getD 100)) ∧
    (0 ≤ (p.current_capital * (1/10) * e.strength)
          / ((alookup p.current_prices e.symbol).getD 100) →
      positionSize p e
        = ⌊(p.current_capital * (1/10) * e.strength)
            / ((alookup p.current_prices e.symbol).getD 100)⌋) ∧
    (positionSize p e = 0 → (process_signal p e).2 = []) ∧
    (positionSize p e ≠ 0 → e.signal_type = SignalType.LONG →
      (process_signal p e).2
        = [{ timestamp := e.timestamp, symbol := e.symbol,
             order_type := OrderType.MARKET, quantity := positionSize p e,
             direction := Direction.BUY }]) ∧
    (positionSize p e ≠ 0 → e.signal_type = SignalType.SHORT →
      (process_signal p e).2
        = [{ timestamp := e.timestamp, symbol := e.symbol,
             order_type := OrderType.MARKET, quantity := positionSize p e,
             direction := Direction.SELL }]) := by
  refine ⟨rfl, ?_, ?_, ?_, ?_⟩
  · intro hq
    exact truncQ_eq_floor_of_nonneg _ hq
  · intro h0
    simp [process_signal, h0]
  · intro h0 hty
    simp [process_signal, h0, hty]
  · intro h0 hty
    simp [process_signal, h0, hty]

/-- Witness for the amended C3 on a fresh portfolio with capital 1000 and a
LONG signal of strength 1 (size 1, no recorded price so the default 100 is
used). -/
theorem c3_sizing_amended_witness :
    (process_signal (Portfolio.init 1000) ⟨0, "A", SignalType.LONG, 1⟩).2
      = [{ timestamp := 0, symbol := "A", order_type := OrderType.MARKET,
           quantity := 1, direction := Direction.BUY }] ∧
    positionSize (Portfolio.init 1000) ⟨0, "A", SignalType.LONG, 1⟩
      = ⌊((Portfolio.init 1000).current_capital * (1/10) * (1 : ℚ))
          / ((alookup (Portfolio.init 1000).current_prices "A").getD 100)⌋ := by
  have hsz : positionSize (Portfolio.init 1000) ⟨0, "A", SignalType.LONG, 1⟩ = 1 := by
    unfold positionSize truncQ
    norm_num [alookup, Portfolio.init]
  constructor
  · have h := (c3_sizing_amended (Portfolio.init 1000) ⟨0, "A", SignalType.LONG, 1⟩).2.2.2.1
      (by rw [hsz]; decide) rfl
    rw [h, hsz]
  · exact (c3_sizing_amended (Portfolio.init 1000) ⟨0, "A", SignalType.LONG, 1⟩).2.1
      (by norm_num [alookup, Portfolio.init])

end Backtest

namespace Backtest

/-!
Execution simulator (`src/core/execution.py`, class `ExecutionHandler`).
The uniform random draws (slippage factor in `[0.5, 1.5]` and latency)
are passed as explicit parameters `r` and `latency`.
-/

/-- State of the `ExecutionHandler` class. -/
structure ExecutionHandler where
  slippage_pct : ℚ
  commission_pct : ℚ
  current_prices : List (String × ℚ)
deriving DecidableEq, Repr

/-- Method `ExecutionHandler.update_market_price`. -/
def exec_update_market_price (h : ExecutionHandler) (symbol : String) (price : ℚ) :
    ExecutionHandler :=
  { h with current_prices := ainsert h.current_prices symbol price }

/-- Method `ExecutionHandler.execute_order`: with no recorded price for the
symbol the order is dropped (warning, no fill); otherwise the slippage factor
is the configured rate, times 1.5 for MARKET orders, times the uniform draw
`r`; the fill price moves against the trader (up for BUY, down for SELL); the
commission is `fill_price * quantity * commission_pct`; the emitted fill
records `|fill_price - base_price|` in its slippage field and is stamped
`order.timestamp + latency`. -/
def execute_order (h : ExecutionHandler) (e : OrderEvent) (r latency : ℚ) :
    Option FillEvent :=
  match alookup h.current_prices e.symbol with
  | none => none
  | some base_price =>
      let slippage_factor :=
        h.slippage_pct * (if e.order_type = OrderType.MARKET then 3/2 else 1)
      let slippage := base_price * slippage_factor * r
      let fill_price :=
        if e.direction = Direction.BUY then base_price + slippage
        else base_price - slippage
      let commission := fill_price * (e.quantity : ℚ) * h.commission_pct
      some { timestamp := e.timestamp + latency, symbol := e.symbol,
             quantity := e.quantity, direction := e.direction,
             fill_price := fill_price, commission := commission,
             slippage := |fill_price - base_price| }

/-- Composition of the demo wiring for one order: the fill emitted by the
execution simulator (if any) is handed to `Portfolio.process_fill`; a dropped
order leaves the portfolio as it was. -/
def executeAndFill (h : ExecutionHandler) (p : Portfolio) (e : OrderEvent)
    (r latency : ℚ) : Portfolio :=
  match execute_order h e r latency with
  | none => p
  | some f => process_fill p f

/-- C5: for an order on a symbol whose base price is `base` and any slippage
draw `r` in `[1/2, 3/2]`, a fill is emitted whose price is the base price
plus (for BUY) or minus (for SELL) the magnitude
`base * slippage_pct * (3/2 for MARKET, 1 for LIMIT) * r`, and whose
slippage field is `|fill_price - base|`. -/
theorem c5_slippage_fill (h : ExecutionHandler) (e : OrderEvent)
    (r latency base : ℚ)
    (hb : alookup h.current_prices e.symbol = some base)
    (hr1 : 1/2 ≤ r) (hr2 : r ≤ 3/2) :
    ∃ f, execute_order h e r latency = some f ∧
      (e.direction = Direction.BUY →
        f.fill_price = base
          + base * h.slippage_pct
            * (if e.order_type = OrderType.MARKET then 3/2 else 1) * r) ∧
      (e.direction = Direction.SELL →
        f.fill_price = base
          - base * h.slippage_pct
            * (if e.order_type = OrderType.MARKET then 3/2 else 1) * r) ∧
      f.slippage = |f.fill_price - base| := by
  refine ⟨_, by rw [execute_order, hb], ?_, ?_, ?_⟩
  · intro hd
    show (if e.direction = Direction.BUY then _ else _) = _
    rw [if_pos hd]
    ring
  · intro hd
    have hd' : ¬ e.direction = Direction.BUY := by
      rw [hd]
      intro hcon
      exact Direction.noConfusion hcon
    show (if e.direction = Direction.BUY then _ else _) = _
    rw [if_neg hd']
    ring
  · rfl

/-- Witness for C5: a MARKET BUY for "A" at base price 100, slippage rate
1/1000, draw r = 1, latency 0. -/
theorem c5_slippage_fill_witness :
    ∃ f, execute_order ⟨1/1000, 1/1000, [("A", 100)]⟩
        ⟨0, "A", OrderType.MARKET, 10, Direction.BUY⟩ 1 0 = some f ∧
      (Direction.BUY = Direction.BUY →
        f.fill_price = 100
          + 100 * (1/1000)
            * (if OrderType.MARKET = OrderType.MARKET then 3/2 else 1) * 1) ∧
      (Direction.BUY = Direction.SELL →
        f.fill_price = 100
          - 100 * (1/1000)
            * (if OrderType.MARKET = OrderType.MARKET then 3/2 else 1) * 1) ∧
      f.slippage = |f.fill_price - 100| :=
  c5_slippage_fill ⟨1/1000, 1/1000, [("A", 100)]⟩
    ⟨0, "A", OrderType.MARKET, 10, Direction.BUY⟩ 1 0 100
    (by decide) (by norm_num) (by norm_num)

/-- C6: an order for a symbol with no recorded market price produces no fill,
and the portfolio is left unchanged by that order. -/
theorem c6_dropped_order (h : ExecutionHandler) (p : Portfolio) (e : OrderEvent)
    (r latency : ℚ)
    (hnone : alookup h.current_prices e.symbol = none) :
    execute_order h e r latency = none ∧
    executeAndFill h p e r latency = p := by
  have hx : execute_order h e r latency = none := by
    rw [execute_order, hnone]
  exact ⟨hx, by rw [executeAndFill, hx]⟩

/-- Witness for C6: an order for "B" when only "A" has a recorded price. -/
theorem c6_dropped_order_witness :
    execute_order ⟨1/1000, 1/1000, [("A", 100)]⟩
        ⟨0, "B", OrderType.MARKET, 10, Direction.BUY⟩ 1 0 = none ∧
    executeAndFill ⟨1/1000, 1/1000, [("A", 100)]⟩ (Portfolio.init 1000)
        ⟨0, "B", OrderType.MARKET, 10, Direction.BUY⟩ 1 0 = Portfolio.init 1000 :=
  c6_dropped_order ⟨1/1000, 1/1000, [("A", 100)]⟩ (Portfolio.init 1000)
    ⟨0, "B", OrderType.MARKET, 10, Direction.BUY⟩ 1 0 (by decide)

end Backtest

namespace Backtest

/-!
Event engine (`src/core/event_engine.py`, class `EventEngine`).  A handler
may update the shared component state (type `σ`) and enqueue new events —
the list it returns holds its `put_event` calls in order.  The queue is the
explicit list argument and `process_events` takes fuel, since a handler set
that keeps re-enqueuing events need not terminate; it returns the final
state, the events handled in handling order, and the unprocessed remainder
(empty unless the fuel ran out).
-/

/-- Handler registry of the event engine: the `self.handlers` dict mapping
each event type to the list of registered handlers. -/
def Handlers (σ : Type) : Type :=
  EventType → List (σ → Event → σ × List Event)

/-- Fresh registry: every event type maps to an empty handler list. -/
def emptyHandlers (σ : Type) : Handlers σ := fun _ => []

/-- Method `EventEngine.register_handler`: appends to the type's list. -/
def register_handler {σ : Type} (H : Handlers σ) (t : EventType)
    (h : σ → Event → σ × List Event) : Handlers σ :=
  fun t' => if t' = t then H t' ++ [h] else H t'

/-- Runs every handler of a list on one event, in order; each handler sees
the state left by the previous one and the emissions concatenate in order. -/
def runHandlers {σ : Type} (hs : List (σ → Event → σ × List Event)) (s : σ)
    (e : Event) : σ × List Event :=
  hs.foldl (fun acc h => ((h acc.1 e).1, acc.2 ++ (h acc.1 e).2)) (s, [])

/-- Method `EventEngine.process_events`: repeatedly pops the queue head,
invokes all handlers registered for its type, appends their emissions to
the queue, and recurses until the queue is empty or the fuel is spent. -/
def process_events {σ : Type} (H : Handlers σ) :
    ℕ → σ → List Event → σ × List Event × List Event
  | 0, s, q => (s, [], q)
  | _ + 1, s, [] => (s, [], [])
  | fuel + 1, s, e :: rest =>
      let r1 := runHandlers (H e.etype) s e
      let r2 := process_events H fuel r1.1 (rest ++ r1.2)
      (r2.1, e :: r2.2.1, r2.2.2)

theorem runHandlers_acc {σ : Type} (hs : List (σ → Event → σ × List Event))
    (s : σ) (acc : List Event) (e : Event) :
    hs.foldl (fun acc' h => ((h acc'.1 e).1, acc'.2 ++ (h acc'.1 e).2)) (s, acc)
      = ((runHandlers hs s e).1, acc ++ (runHandlers hs s e).2) := by
  induction hs generalizing s acc with
  | nil => simp [runHandlers]
  | cons h0 rest ih =>
      simp only [runHandlers, List.foldl_cons, List.nil_append] at ih ⊢
      rw [ih ((h0 s e).1) (acc ++ (h0 s e).2), ih ((h0 s e).1) ((h0 s e).2)]
      simp [List.append_assoc]

theorem runHandlers_append {σ : Type} (hs : List (σ → Event → σ × List Event))
    (h : σ → Event → σ × List Event) (s : σ) (e : Event) :
    runHandlers (hs ++ [h]) s e
      = ((h (runHandlers hs s e).1 e).1,
         (runHandlers hs s e).2 ++ (h (runHandlers hs s e).1 e).2) := by
  show (hs ++ [h]).foldl _ (s, ([] : List Event)) = _
  rw [List.foldl_append, runHandlers_acc]
  simp [runHandlers]

theorem process_events_leftover_nil {σ : Type} (H : Handlers σ) (fuel : ℕ)
    (s : σ) (q : List Event)
    (hfuel : (process_events H fuel s q).2.1.length < fuel) :
    (process_events H fuel s q).2.2 = [] := by
  induction fuel generalizing s q with
  | zero => exact absurd hfuel (Nat.not_lt_zero _)
  | succ n ih =>
      cases q with
      | nil => rfl
      | cons e rest =>
          simp only [process_events, List.length_cons] at hfuel ⊢
          exact ih _ _ (Nat.lt_of_succ_lt_succ hfuel)

theorem process_events_handled_all {σ : Type} (H : Handlers σ) (fuel : ℕ)
    (s : σ) (q : List Event)
    (hdone : (process_events H fuel s q).2.2 = []) :
    ∃ t, (process_events H fuel s q).2.1 = q ++ t := by
  induction fuel generalizing s q with
  | zero =>
      simp only [process_events] at hdone
      subst hdone
      exact ⟨[], by simp [process_events]⟩
  | succ n ih =>
      cases q with
      | nil => exact ⟨[], rfl⟩
      | cons e rest =>
          simp only [process_events] at hdone ⊢
          obtain ⟨t, ht⟩ := ih _ _ hdone
          exact ⟨(runHandlers (H e.etype) s e).2 ++ t, by rw [ht]; simp⟩

/-- C4: within one `process_events` drain (a) the queue head is handled
first and the events its handlers enqueue go to the back of the queue and
are drained in the same call, (b) a drain of an empty queue handles nothing
and stops, (c) a newly registered handler runs after all previously
registered handlers for that type, on the state they left, with its
emissions enqueued after theirs (registration order), (d) if the drain
stops with fuel to spare it stopped because the queue was empty, and (e)
whenever the drain completes, the events handled are exactly the enqueued
events in FIFO enqueue order: the initial queue in order, followed by the
events enqueued during the drain. -/
theorem c4_dispatcher_fifo {σ : Type} (H : Handlers σ) (fuel : ℕ) (s : σ)
    (q : List Event) :
    (∀ e rest,
      process_events H (fuel + 1) s (e :: rest)
        = ((process_events H fuel (runHandlers (H e.etype) s e).1
              (rest ++ (runHandlers (H e.etype) s e).2)).1,
           e :: (process_events H fuel (runHandlers (H e.etype) s e).1
              (rest ++ (runHandlers (H e.etype) s e).2)).2.1,
           (process_events H fuel (runHandlers (H e.etype) s e).1
              (rest ++ (runHandlers (H e.etype) s e).2)).2.2)) ∧
    process_events H (fuel + 1) s [] = (s, [], []) ∧
    (∀ t h' s' e', runHandlers ((register_handler H t h') t) s' e'
        = ((h' (runHandlers (H t) s' e').1 e').1,
           (runHandlers (H t) s' e').2
             ++ (h' (runHandlers (H t) s' e').1 e').2)) ∧
    ((process_events H fuel s q).2.1.length < fuel →
      (process_events H fuel s q).2.2 = []) ∧
    ((process_events H fuel s q).2.2 = [] →
      ∃ t, (process_events H fuel s q).2.1 = q ++ t) := by
  refine ⟨fun e rest => rfl, rfl, ?_, process_events_leftover_nil H fuel s q,
    process_events_handled_all H fuel s q⟩
  intro t h' s' e'
  have hreg : (register_handler H t h') t = H t ++ [h'] := by
    simp [register_handler]
  rw [hreg, runHandlers_append]

/-- Witness for C4: draining a one-event queue with an empty registry over
state `ℕ`. -/
theorem c4_dispatcher_fifo_witness :
    ((process_events (emptyHandlers ℕ) 2 0
        [Event.market ⟨0, "A", 0, 0, 0, 0, 0⟩]).2.2 = []) ∧
    (∃ t, (process_events (emptyHandlers ℕ) 2 0
        [Event.market ⟨0, "A", 0, 0, 0, 0, 0⟩]).2.1
      = [Event.market ⟨0, "A", 0, 0, 0, 0, 0⟩] ++ t) :=
  ⟨(c4_dispatcher_fifo (emptyHandlers ℕ) 2 0
      [Event.market ⟨0, "A", 0, 0, 0, 0, 0⟩]).2.2.2.1 (by decide),
   (c4_dispatcher_fifo (emptyHandlers ℕ) 2 0
      [Event.market ⟨0, "A", 0, 0, 0, 0, 0⟩]).2.2.2.2
     ((c4_dispatcher_fifo (emptyHandlers ℕ) 2 0
      [Event.market ⟨0, "A", 0, 0, 0, 0, 0⟩]).2.2.2.1 (by decide))⟩

end Backtest

namespace Backtest

/-!
Data handler (`src/core/data_handler.py`, class `DataHandler`) and the
mean-reversion strategy (`src/core/strategy.py`, class
`MeanReversionStrategy`).  A dataframe row is a `Bar`; `Bar.ts` stands for
the dataframe index entry.  Pandas `mean()` and `std()` over the `close`
column become `listMean` and `sqrtFn ∘ sampleVar` (sample variance with
denominator `n − 1`, the pandas `ddof=1` default); the floating-point
square root is the explicit parameter `sqrtFn`.
-/

/-- One OHLCV dataframe row. -/
structure Bar where
  ts : ℚ
  opn : ℚ
  high : ℚ
  low : ℚ
  close : ℚ
  volume : ℚ
deriving DecidableEq, Repr

/-- State of the `DataHandler` class: per-symbol rows and shared cursor. -/
structure DataHandlerState where
  data : List (String × List Bar)
  current_index : ℕ
deriving DecidableEq, Repr

/-- Method `DataHandler.get_latest_bars`: the window
`data[symbol].iloc[current_index - n : current_index]`, `None` when the
symbol is unknown or fewer than `n` bars precede the cursor. -/
def get_latest_bars (d : DataHandlerState) (symbol : String) (n : ℕ) :
    Option (List Bar) :=
  match alookup d.data symbol with
  | none => none
  | some rows =>
      if d.current_index < n then none
      else some ((rows.take d.current_index).drop (d.current_index - n))

/-- Pandas `Series.mean()`. -/
def listMean (l : List ℚ) : ℚ :=
  l.sum / (l.length : ℚ)

/-- Pandas `Series.var(ddof=1)`, the square of `Series.std()`; for a
one-element series pandas yields NaN where this embedding yields 0 (ℚ has
no NaN), so claims about the standard deviation assume a window of at
least 2. -/
def sampleVar (l : List ℚ) : ℚ :=
  ((l.map (fun x => (x - listMean l) ^ 2)).sum) / ((l.length : ℚ) - 1)

/-- Configuration of the `MeanReversionStrategy` class; the mutable
`self.position` flag is passed and returned explicitly. -/
structure MeanReversionStrategy where
  symbol : String
  lookback : ℕ
  num_std : ℚ
deriving DecidableEq, Repr

/-- Method `MeanReversionStrategy.calculate_signals`: Bollinger-band mean
reversion over the trailing `lookback` closes; returns the new position
flag and the emitted signal, if any. -/
def calculate_signals (sqrtFn : ℚ → ℚ) (st : MeanReversionStrategy)
    (position : ℤ) (d : DataHandlerState) (e : MarketEvent) :
    ℤ × Option SignalEvent :=
  if e.symbol ≠ st.symbol then (position, none)
  else
    match get_latest_bars d st.symbol st.lookback with
    | none => (position, none)
    | some bars =>
        if bars.length < st.lookback then (position, none)
        else
          let closes := bars.map Bar.close
          let sma := listMean closes
          let std := sqrtFn (sampleVar closes)
          let upper_band := sma + st.num_std * std
          let lower_band := sma - st.num_std * std
          let current_price := e.close
          if current_price < lower_band ∧ position = 0 then
            (1, some ⟨e.timestamp, st.symbol, SignalType.LONG,
                      min 1 ((lower_band - current_price) / std)⟩)
          else if upper_band < current_price ∧ position = 1 then
            (0, some ⟨e.timestamp, st.symbol, SignalType.EXIT,
                      min 1 ((current_price - upper_band) / std)⟩)
          else if |current_price - sma| < (1/2) * std ∧ position = 1 then
            (0, some ⟨e.timestamp, st.symbol, SignalType.EXIT, 1/2⟩)
          else (position, none)

theorem sq_sum_zero_all_eq (l : List ℚ) (m : ℚ)
    (h : (l.map (fun x => (x - m) ^ 2)).sum = 0) :
    ∀ x ∈ l, x = m := by
  intro x hx
  have hnn : ∀ y ∈ l.map (fun x => (x - m) ^ 2), 0 ≤ y := by
    intro y hy
    obtain ⟨z, _, hz⟩ := List.mem_map.mp hy
    rw [← hz]
    exact sq_nonneg _
  have hle : (x - m) ^ 2 ≤ (l.map (fun x => (x - m) ^ 2)).sum :=
    List.single_le_sum hnn _ (List.mem_map.mpr ⟨x, hx, rfl⟩)
  have hsq : (x - m) ^ 2 = 0 :=
    le_antisymm (h ▸ hle) (sq_nonneg _)
  have := pow_eq_zero_iff (n := 2) (by omega) |>.mp hsq
  linarith [sub_eq_zero.mp this]

end Backtest

namespace Backtest

/-- C9: when the strategy has a full window of trailing closes (the current
bar's close among them) and their sample standard deviation is 0 — i.e. the
sample variance is 0, for any square root with `sqrtFn 0 = 0` — then
`calculate_signals` emits no signal, leaves the position flag unchanged, and
neither band-crossing guard holds, so the divisions by σ in the strength
computations are unreachable. -/
theorem c9_zero_std_no_signal (sqrtFn : ℚ → ℚ) (st : MeanReversionStrategy)
    (position : ℤ) (d : DataHandlerState) (e : MarketEvent) (bars : List Bar)
    (hsq : sqrtFn 0 = 0) (hW : 2 ≤ st.lookback)
    (hbars : get_latest_bars d st.symbol st.lookback = some bars)
    (hlen : bars.length = st.lookback)
    (hmem : e.close ∈ bars.map Bar.close)
    (hvar : sampleVar (bars.map Bar.close) = 0)
    (hsym : e.symbol = st.symbol) :
    (calculate_signals sqrtFn st position d e).2 = none ∧
    (calculate_signals sqrtFn st position d e).1 = position ∧
    ¬ (e.close < listMean (bars.map Bar.close)
        - st.num_std * sqrtFn (sampleVar (bars.map Bar.close))) ∧
    ¬ (listMean (bars.map Bar.close)
        + st.num_std * sqrtFn (sampleVar (bars.map Bar.close)) < e.close) := by
  have hlen2 : (2 : ℚ) ≤ ((bars.map Bar.close).length : ℚ) := by
    rw [List.length_map, hlen]
    exact_mod_cast hW
  have hS : ((bars.map Bar.close).map
      (fun x => (x - listMean (bars.map Bar.close)) ^ 2)).sum = 0 := by
    have hd : (((bars.map Bar.close).length : ℚ) - 1) ≠ 0 := by linarith
    unfold sampleVar at hvar
    rcases div_eq_zero_iff.mp hvar with h | h
    · exact h
    · exact absurd h hd
  have hclose : e.close = listMean (bars.map Bar.close) :=
    sq_sum_zero_all_eq _ _ hS e.close hmem
  have hstd : sqrtFn (sampleVar (bars.map Bar.close)) = 0 := by
    rw [hvar, hsq]
  have hnlt : ¬ (e.close < listMean (bars.map Bar.close)
      - st.num_std * sqrtFn (sampleVar (bars.map Bar.close))) := by
    rw [hstd, hclose]
    simp
  have hngt : ¬ (listMean (bars.map Bar.close)
      + st.num_std * sqrtFn (sampleVar (bars.map Bar.close)) < e.close) := by
    rw [hstd, hclose]
    simp
  have hnmid : ¬ (|e.close - listMean (bars.map Bar.close)|
      < (1/2) * sqrtFn (sampleVar (bars.map Bar.close))) := by
    rw [hstd, hclose]
    simp
  have hkey : calculate_signals sqrtFn st position d e = (position, none) := by
    unfold calculate_signals
    rw [if_neg (by simp [hsym]), hbars]
    simp only [hlen, lt_irrefl, if_false]
    rw [if_neg (fun hc => hnlt hc.1)]
    rw [if_neg (fun hc => hngt hc.1)]
    rw [if_neg (fun hc => hnmid hc.1)]
  exact ⟨by rw [hkey], by rw [hkey], hnlt, hngt⟩

end Backtest

namespace Backtest

/-- Witness for C9: a window of two equal closes of 10 with lookback 2; no
signal is emitted and the position flag stays 0. -/
theorem c9_zero_std_no_signal_witness :
    (calculate_signals id ⟨"A", 2, 2⟩ 0
        ⟨[("A", [⟨0, 10, 10, 10, 10, 1⟩, ⟨1, 10, 10, 10, 10, 1⟩])], 2⟩
        ⟨1, "A", 10, 10, 10, 10, 1⟩).2 = none ∧
    (calculate_signals id ⟨"A", 2, 2⟩ 0
        ⟨[("A", [⟨0, 10, 10, 10, 10, 1⟩, ⟨1, 10, 10, 10, 10, 1⟩])], 2⟩
        ⟨1, "A", 10, 10, 10, 10, 1⟩).1 = 0 := by
  have h := c9_zero_std_no_signal id ⟨"A", 2, 2⟩ 0
      ⟨[("A", [⟨0, 10, 10, 10, 10, 1⟩, ⟨1, 10, 10, 10, 10, 1⟩])], 2⟩
      ⟨1, "A", 10, 10, 10, 10, 1⟩
      [⟨0, 10, 10, 10, 10, 1⟩, ⟨1, 10, 10, 10, 10, 1⟩]
      rfl (by norm_num) (by decide) rfl (by decide)
      (by norm_num [sampleVar, listMean]) rfl
  exact ⟨h.1, h.2.1⟩

end Backtest

namespace Backtest

/-!
Whole-system wiring (`src/examples/mean_reversion_demo.py`,
`run_backtest`): the four handlers registered on the engine, the
per-bar streaming of `DataHandler.stream_next_bar`, and the outer loop
that alternates streaming one bar with draining the queue.  The uniform
draws of the execution simulator are supplied by the config's `rand`
(slippage factor) and `latf` (latency) sequences, indexed by an order
counter threaded through the state.
-/

/-- Run-wide immutable configuration (constructor arguments of the demo). -/
structure SysConfig where
  symbols : List String
  data : List (String × List Bar)
  strat : MeanReversionStrategy
  slippage_pct : ℚ
  commission_pct : ℚ
  sqrtFn : ℚ → ℚ
  rand : ℕ → ℚ
  latf : ℕ → ℚ

/-- Mutable state shared by the components during a run. -/
structure SysState where
  portfolio : Portfolio
  execPrices : List (String × ℚ)
  stratPos : ℤ
  dataIndex : ℕ
  rngIdx : ℕ

/-- Demo handler `handle_market_event`: forwards the close to the
portfolio and the execution simulator, then lets the strategy emit its
signal. -/
def sysHandleMarket (cfg : SysConfig) (s : SysState) (ev : Event) :
    SysState × List Event :=
  match ev with
  | Event.market m =>
      let p := update_market_price s.portfolio m.symbol m.close m.timestamp
      let ex := ainsert s.execPrices m.symbol m.close
      let r := calculate_signals cfg.sqrtFn cfg.strat s.stratPos
        ⟨cfg.data, s.dataIndex⟩ m
      ({ s with portfolio := p, execPrices := ex, stratPos := r.1 },
       (r.2.map Event.signal).toList)
  | _ => (s, [])

/-- Demo handler `handle_signal_event`. -/
def sysHandleSignal (cfg : SysConfig) (s : SysState) (ev : Event) :
    SysState × List Event :=
  match ev with
  | Event.signal sg =>
      let r := process_signal s.portfolio sg
      ({ s with portfolio := r.1 }, r.2.map Event.order)
  | _ => (s, [])

/-- Demo handler `handle_order_event`: one pair of random draws per
executed order. -/
def sysHandleOrder (cfg : SysConfig) (s : SysState) (ev : Event) :
    SysState × List Event :=
  match ev with
  | Event.order o =>
      let r := execute_order ⟨cfg.slippage_pct, cfg.commission_pct, s.execPrices⟩
        o (cfg.rand s.rngIdx) (cfg.latf s.rngIdx)
      ({ s with rngIdx := s.rngIdx + 1 }, (r.map Event.fill).toList)
  | _ => (s, [])

/-- Demo handler `handle_fill_event`. -/
def sysHandleFill (cfg : SysConfig) (s : SysState) (ev : Event) :
    SysState × List Event :=
  match ev with
  | Event.fill f => ({ s with portfolio := process_fill s.portfolio f }, [])
  | _ => (s, [])

/-- The demo's handler registrations, in source order. -/
def sysHandlers (cfg : SysConfig) : Handlers SysState :=
  register_handler (register_handler (register_handler (register_handler
    (emptyHandlers SysState)
    EventType.MARKET (sysHandleMarket cfg))
    EventType.SIGNAL (sysHandleSignal cfg))
    EventType.ORDER (sysHandleOrder cfg))
    EventType.FILL (sysHandleFill cfg)

/-- Termination rank of an event type: each handled event only spawns
events of strictly smaller rank (market → signal → order → fill). -/
def rank : EventType → ℕ
  | .MARKET => 4
  | .SIGNAL => 3
  | .ORDER => 2
  | .FILL => 1

/-- Total rank of a queue; an upper bound on the events left to handle. -/
def rankSum (q : List Event) : ℕ :=
  (q.map (fun e => rank e.etype)).sum

/-- Shortest row list over all symbols,
`min(len(df) for df in self.data.values())` (0 for no data, but the
caller tests for no data first). -/
def minDataLen : List (String × List Bar) → ℕ
  | [] => 0
  | (_, rows) :: rest => rest.foldl (fun a p => Nat.min a p.2.length) rows.length

/-- The MarketEvent built from one dataframe row. -/
def barEvent (sym : String) (b : Bar) : Event :=
  Event.market ⟨b.ts, sym, b.opn, b.high, b.low, b.close, b.volume⟩

/-- Method `DataHandler.stream_next_bar`: `False` with no data or at the
end of the shortest series; otherwise enqueues one MarketEvent per symbol
from the current row and advances the shared cursor. -/
def stream_next_bar (cfg : SysConfig) (s : SysState) :
    SysState × List Event × Bool :=
  if cfg.data = [] then (s, [], false)
  else if minDataLen cfg.data ≤ s.dataIndex then (s, [], false)
  else
    let evs := cfg.symbols.filterMap (fun sym =>
      match alookup cfg.data sym with
      | some rows => (rows.get? s.dataIndex).map (barEvent sym)
      | none => none)
    ({ s with dataIndex := s.dataIndex + 1 }, evs, true)

/-- Fresh system state (demo initialization). -/
def initSysState (c : ℚ) : SysState :=
  { portfolio := Portfolio.init c, execPrices := [], stratPos := 0,
    dataIndex := 0, rngIdx := 0 }

/-- The demo's outer loop: stream one bar, drain the queue, repeat until
the feed is exhausted (the fuel argument bounds the number of bars). -/
def run_backtest (cfg : SysConfig) : ℕ → SysState → SysState
  | 0, s => s
  | n + 1, s =>
      let r := stream_next_bar cfg s
      if r.2.2 = true then
        run_backtest cfg n
          (process_events (sysHandlers cfg) (rankSum r.2.1) r.1 r.2.1).1
      else r.1

end Backtest

namespace Backtest

theorem sysHandlers_market (cfg : SysConfig) :
    sysHandlers cfg EventType.MARKET = [sysHandleMarket cfg] := rfl

theorem sysHandlers_signal (cfg : SysConfig) :
    sysHandlers cfg EventType.SIGNAL = [sysHandleSignal cfg] := rfl

theorem sysHandlers_order (cfg : SysConfig) :
    sysHandlers cfg EventType.ORDER = [sysHandleOrder cfg] := rfl

theorem sysHandlers_fill (cfg : SysConfig) :
    sysHandlers cfg EventType.FILL = [sysHandleFill cfg] := rfl

theorem runHandlers_singleton {σ : Type} (h : σ → Event → σ × List Event)
    (s : σ) (e : Event) : runHandlers [h] s e = h s e := by
  simp [runHandlers]

/-- Every handled event spawns strictly less queue rank than it consumes:
a market event yields at most one signal, a signal at most one order, an
order at most one fill, a fill nothing. -/
theorem sys_emission_bound (cfg : SysConfig) (s : SysState) (e : Event) :
    rankSum (runHandlers (sysHandlers cfg e.etype) s e).2 < rank e.etype := by
  cases e with
  | market m =>
      show rankSum (runHandlers (sysHandlers cfg EventType.MARKET) s
        (Event.market m)).2 < rank EventType.MARKET
      rw [sysHandlers_market, runHandlers_singleton]
      simp only [sysHandleMarket]
      cases (calculate_signals cfg.sqrtFn cfg.strat s.stratPos
          ⟨cfg.data, s.dataIndex⟩ m).2 <;>
        simp [rankSum, rank, Event.etype]
  | signal sg =>
      show rankSum (runHandlers (sysHandlers cfg EventType.SIGNAL) s
        (Event.signal sg)).2 < rank EventType.SIGNAL
      rw [sysHandlers_signal, runHandlers_singleton]
      simp only [sysHandleSignal]
      rcases process_signal_orders_shape s.portfolio sg with h | ⟨o, h⟩ <;>
        simp [h, rankSum, rank, Event.etype]
  | order o =>
      show rankSum (runHandlers (sysHandlers cfg EventType.ORDER) s
        (Event.order o)).2 < rank EventType.ORDER
      rw [sysHandlers_order, runHandlers_singleton]
      simp only [sysHandleOrder]
      cases execute_order ⟨cfg.slippage_pct, cfg.commission_pct, s.execPrices⟩
          o (cfg.rand s.rngIdx) (cfg.latf s.rngIdx) <;>
        simp [rankSum, rank, Event.etype]
  | fill f =>
      show rankSum (runHandlers (sysHandlers cfg EventType.FILL) s
        (Event.fill f)).2 < rank EventType.FILL
      rw [sysHandlers_fill, runHandlers_singleton]
      simp [sysHandleFill, rankSum, rank]

/-- With emission ranks strictly decreasing, fuel `rankSum q` drains the
whole queue. -/
theorem process_events_complete {σ : Type} (H : Handlers σ)
    (hbound : ∀ s e, rankSum (runHandlers (H e.etype) s e).2 < rank e.etype)
    (fuel : ℕ) (s : σ) (q : List Event) (hfuel : rankSum q ≤ fuel) :
    (process_events H fuel s q).2.2 = [] := by
  induction fuel generalizing s q with
  | zero =>
      cases q with
      | nil => rfl
      | cons e rest =>
          exfalso
          have h1 : 1 ≤ rank e.etype := by cases e <;> simp [rank, Event.etype]
          simp only [rankSum, List.map_cons, List.sum_cons] at hfuel
          omega
  | succ n ih =>
      cases q with
      | nil => rfl
      | cons e rest =>
          simp only [process_events]
          apply ih
          have h1 := hbound s e
          have h2 : rankSum (e :: rest) = rank e.etype + rankSum rest := by
            simp [rankSum]
          have h3 : rankSum (rest ++ (runHandlers (H e.etype) s e).2)
              = rankSum rest + rankSum (runHandlers (H e.etype) s e).2 := by
            simp [rankSum]
          omega

end Backtest

namespace Backtest

/-- Tests whether an event is a MarketEvent. -/
def isMarket (e : Event) : Bool :=
  match e with
  | .market _ => true
  | _ => false

/-- Number of market events in a queue. -/
def countMarket (q : List Event) : ℕ :=
  (q.filter isMarket).length

theorem countMarket_cons (e : Event) (q : List Event) :
    countMarket (e :: q) = (if isMarket e then 1 else 0) + countMarket q := by
  cases he : isMarket e <;> simp [countMarket, List.filter_cons, he, Nat.add_comm]

theorem countMarket_append (q1 q2 : List Event) :
    countMarket (q1 ++ q2) = countMarket q1 + countMarket q2 := by
  simp [countMarket, List.filter_append]

/-- Handling one event appends exactly one equity entry when it is a market
event and none otherwise, emits no market events, and leaves the data
cursor alone. -/
theorem sys_step_equity (cfg : SysConfig) (s : SysState) (e : Event) :
    (runHandlers (sysHandlers cfg e.etype) s e).1.portfolio.equity_curve.length
      = s.portfolio.equity_curve.length + (if isMarket e then 1 else 0) ∧
    countMarket (runHandlers (sysHandlers cfg e.etype) s e).2 = 0 ∧
    (runHandlers (sysHandlers cfg e.etype) s e).1.dataIndex = s.dataIndex := by
  cases e with
  | market m =>
      show (runHandlers (sysHandlers cfg EventType.MARKET) s
          (Event.market m)).1.portfolio.equity_curve.length = _ ∧
        countMarket (runHandlers (sysHandlers cfg EventType.MARKET) s
          (Event.market m)).2 = 0 ∧
        (runHandlers (sysHandlers cfg EventType.MARKET) s
          (Event.market m)).1.dataIndex = s.dataIndex
      rw [sysHandlers_market, runHandlers_singleton]
      simp only [sysHandleMarket]
      refine ⟨?_, ?_, by trivial⟩
      · simp [update_equity_len, isMarket]
      · cases (calculate_signals cfg.sqrtFn cfg.strat s.stratPos
            ⟨cfg.data, s.dataIndex⟩ m).2 <;>
          simp [countMarket, isMarket]
  | signal sg =>
      show (runHandlers (sysHandlers cfg EventType.SIGNAL) s
          (Event.signal sg)).1.portfolio.equity_curve.length = _ ∧
        countMarket (runHandlers (sysHandlers cfg EventType.SIGNAL) s
          (Event.signal sg)).2 = 0 ∧
        (runHandlers (sysHandlers cfg EventType.SIGNAL) s
          (Event.signal sg)).1.dataIndex = s.dataIndex
      rw [sysHandlers_signal, runHandlers_singleton]
      simp only [sysHandleSignal]
      refine ⟨?_, ?_, by trivial⟩
      · rw [process_signal_fst]
        simp [isMarket]
      · rcases process_signal_orders_shape s.portfolio sg with h | ⟨o, h⟩ <;>
          simp [h, countMarket, isMarket]
  | order o =>
      show (runHandlers (sysHandlers cfg EventType.ORDER) s
          (Event.order o)).1.portfolio.equity_curve.length = _ ∧
        countMarket (runHandlers (sysHandlers cfg EventType.ORDER) s
          (Event.order o)).2 = 0 ∧
        (runHandlers (sysHandlers cfg EventType.ORDER) s
          (Event.order o)).1.dataIndex = s.dataIndex
      rw [sysHandlers_order, runHandlers_singleton]
      simp only [sysHandleOrder]
      refine ⟨by simp [isMarket], ?_, by trivial⟩
      cases execute_order ⟨cfg.slippage_pct, cfg.commission_pct, s.execPrices⟩
          o (cfg.rand s.rngIdx) (cfg.latf s.rngIdx) <;>
        simp [countMarket, isMarket]
  | fill f =>
      show (runHandlers (sysHandlers cfg EventType.FILL) s
          (Event.fill f)).1.portfolio.equity_curve.length = _ ∧
        countMarket (runHandlers (sysHandlers cfg EventType.FILL) s
          (Event.fill f)).2 = 0 ∧
        (runHandlers (sysHandlers cfg EventType.FILL) s
          (Event.fill f)).1.dataIndex = s.dataIndex
      rw [sysHandlers_fill, runHandlers_singleton]
      simp only [sysHandleFill]
      refine ⟨?_, by simp [countMarket], by trivial⟩
      rw [process_fill_equity]
      simp [isMarket]

/-- A completed drain grows the equity curve by exactly the number of
market events in the queue and leaves the data cursor alone. -/
theorem process_events_equity (cfg : SysConfig) (fuel : ℕ) (s : SysState)
    (q : List Event)
    (hdone : (process_events (sysHandlers cfg) fuel s q).2.2 = []) :
    (process_events (sysHandlers cfg) fuel s q).1.portfolio.equity_curve.length
      = s.portfolio.equity_curve.length + countMarket q ∧
    (process_events (sysHandlers cfg) fuel s q).1.dataIndex = s.dataIndex := by
  induction fuel generalizing s q with
  | zero =>
      simp only [process_events] at hdone ⊢
      subst hdone
      simp [countMarket]
  | succ n ih =>
      cases q with
      | nil => simp [process_events, countMarket]
      | cons e rest =>
          simp only [process_events] at hdone ⊢
          obtain ⟨h1, h2, h3⟩ := sys_step_equity cfg s e
          obtain ⟨ih1, ih2⟩ := ih _ _ hdone
          constructor
          · rw [ih1, h1, countMarket_append, h2, countMarket_cons]
            omega
          · rw [ih2, h3]

end Backtest

namespace Backtest

theorem filterMap_stream_count (cfg : SysConfig) (idx : ℕ) :
    ∀ syms : List String,
      (∀ sym ∈ syms, ∃ rows, alookup cfg.data sym = some rows ∧ idx < rows.length) →
      countMarket (syms.filterMap (fun sym =>
        match alookup cfg.data sym with
        | some rows => (rows.get? idx).map (barEvent sym)
        | none => none)) = syms.length := by
  intro syms
  induction syms with
  | nil => intro _; simp [countMarket]
  | cons sym rest ih =>
      intro hw
      obtain ⟨rows, hrows, hlt⟩ := hw sym (List.mem_cons_self _ _)
      have hget : ∃ b, rows.get? idx = some b := by
        cases hb : rows.get? idx with
        | none => exact absurd (List.get?_eq_none.mp hb) (Nat.not_le_of_lt hlt)
        | some b => exact ⟨b, rfl⟩
      obtain ⟨b, hb⟩ := hget
      rw [List.filterMap_cons]
      simp only [hrows, hb, Option.map_some']
      rw [countMarket_cons]
      have : isMarket (barEvent sym b) = true := rfl
      rw [this, ih (fun s hs => hw s (List.mem_cons_of_mem _ hs))]
      simp [Nat.add_comm]

/-- With data present and the cursor before the end of the shortest
series, one streaming step emits one market event per tracked symbol,
advances the cursor, touches nothing else, and reports `true`. -/
theorem stream_next_bar_spec (cfg : SysConfig) (s : SysState)
    (hne : cfg.data ≠ [])
    (hlt : s.dataIndex < minDataLen cfg.data)
    (HW : ∀ sym ∈ cfg.symbols, ∃ rows, alookup cfg.data sym = some rows ∧
      minDataLen cfg.data ≤ rows.length) :
    (stream_next_bar cfg s).2.2 = true ∧
    (stream_next_bar cfg s).1.dataIndex = s.dataIndex + 1 ∧
    (stream_next_bar cfg s).1.portfolio = s.portfolio ∧
    countMarket (stream_next_bar cfg s).2.1 = cfg.symbols.length := by
  have hnotle : ¬ (minDataLen cfg.data ≤ s.dataIndex) := Nat.not_le_of_lt hlt
  have hs : stream_next_bar cfg s
      = ({ s with dataIndex := s.dataIndex + 1 },
         cfg.symbols.filterMap (fun sym =>
           match alookup cfg.data sym with
           | some rows => (rows.get? s.dataIndex).map (barEvent sym)
           | none => none), true) := by
    simp only [stream_next_bar, if_neg hne, if_neg hnotle]
  rw [hs]
  refine ⟨rfl, rfl, rfl, ?_⟩
  exact filterMap_stream_count cfg s.dataIndex cfg.symbols
    (fun sym hsym => by
      obtain ⟨rows, hr, hlen⟩ := HW sym hsym
      exact ⟨rows, hr, Nat.lt_of_lt_of_le hlt hlen⟩)

/-- Equity growth of the backtest loop: each of the `min n remaining`
streamed bars contributes one equity entry per tracked symbol. -/
theorem run_backtest_equity (cfg : SysConfig)
    (hne : cfg.data ≠ [])
    (HW : ∀ sym ∈ cfg.symbols, ∃ rows, alookup cfg.data sym = some rows ∧
      minDataLen cfg.data ≤ rows.length) :
    ∀ (n : ℕ) (s : SysState),
      (run_backtest cfg n s).portfolio.equity_curve.length
        = s.portfolio.equity_curve.length
          + min n (minDataLen cfg.data - s.dataIndex) * cfg.symbols.length := by
  intro n
  induction n with
  | zero => intro s; simp [run_backtest]
  | succ n ih =>
      intro s
      by_cases hidx : minDataLen cfg.data ≤ s.dataIndex
      · have hzero : minDataLen cfg.data - s.dataIndex = 0 :=
          Nat.sub_eq_zero_of_le hidx
        simp [run_backtest, stream_next_bar, hne, hidx, hzero]
      · push_neg at hidx
        obtain ⟨hb, hidx1, hport, hcount⟩ := stream_next_bar_spec cfg s hne hidx HW
        have hdone := process_events_complete (sysHandlers cfg)
          (sys_emission_bound cfg) (rankSum (stream_next_bar cfg s).2.1)
          (stream_next_bar cfg s).1 (stream_next_bar cfg s).2.1 le_rfl
        obtain ⟨heq, hdi⟩ := process_events_equity cfg
          (rankSum (stream_next_bar cfg s).2.1) (stream_next_bar cfg s).1
          (stream_next_bar cfg s).2.1 hdone
        show (run_backtest cfg (n + 1) s).portfolio.equity_curve.length = _
        rw [run_backtest, if_pos hb, ih, heq, hdi, hidx1, hport, hcount]
        have hmin : min (n + 1) (minDataLen cfg.data - s.dataIndex)
            = min n (minDataLen cfg.data - (s.dataIndex + 1)) + 1 := by
          omega
        rw [hmin]
        ring

end Backtest

namespace Backtest

/-- Two-symbol configuration used by the C8 counterexample: one bar per
symbol, a lookback too long for any signal. -/
def c8Config : SysConfig :=
  { symbols := ["A", "B"],
    data := [("A", [⟨0, 10, 10, 10, 10, 1⟩]), ("B", [⟨0, 20, 20, 20, 20, 1⟩])],
    strat := ⟨"A", 20, 2⟩,
    slippage_pct := 1/1000, commission_pct := 1/1000,
    sqrtFn := fun x => x, rand := fun _ => 1, latf := fun _ => 0 }

/-- C8 counterexample: a run over two tracked symbols with exactly one bar
each processes one bar but records two equity entries — one per MarketEvent,
i.e. one per symbol per bar — so the equity curve does not have exactly one
entry per processed bar when multiple symbols are tracked. -/
theorem c8_counterexample :
    minDataLen c8Config.data = 1 ∧
    (run_backtest c8Config 1 (initSysState 100000)).portfolio.equity_curve.length
      = 2 := by
  constructor
  · rfl
  · rfl

/-- C8 amended: a full backtest run (fuel covering every bar of the
shortest series, all tracked symbols backed by data) records exactly one
equity-curve entry per MarketEvent — that is, `symbols.length` entries per
processed bar, which is exactly one entry per bar precisely when a single
symbol is tracked. -/
theorem c8_equity_entries (cfg : SysConfig) (c : ℚ) (n : ℕ)
    (hne : cfg.data ≠ [])
    (HW : ∀ sym ∈ cfg.symbols, ∃ rows, alookup cfg.data sym = some rows ∧
      minDataLen cfg.data ≤ rows.length)
    (hn : minDataLen cfg.data ≤ n) :
    (run_backtest cfg n (initSysState c)).portfolio.equity_curve.length
      = minDataLen cfg.data * cfg.symbols.length := by
  rw [run_backtest_equity cfg hne HW n (initSysState c)]
  show (Portfolio.init c).equity_curve.length
      + min n (minDataLen cfg.data - 0) * cfg.symbols.length = _
  simp [Portfolio.init, Nat.min_eq_right hn]

/-- Single-symbol configuration used by the C8 witness. -/
def c8WitnessConfig : SysConfig :=
  { symbols := ["A"], data := [("A", [⟨0, 10, 10, 10, 10, 1⟩])],
    strat := ⟨"A", 20, 2⟩, slippage_pct := 1/1000, commission_pct := 1/1000,
    sqrtFn := fun x => x, rand := fun _ => 1, latf := fun _ => 0 }

/-- Witness for the amended C8: one symbol, one bar, one equity entry. -/
theorem c8_equity_entries_witness :
    (run_backtest c8WitnessConfig 1 (initSysState 100000)).portfolio.equity_curve.length
      = minDataLen c8WitnessConfig.data * c8WitnessConfig.symbols.length :=
  c8_equity_entries c8WitnessConfig 100000 1 (by simp [c8WitnessConfig])
    (fun sym hsym => by
      simp only [c8WitnessConfig, List.mem_singleton] at hsym
      subst hsym
      exact ⟨[⟨0, 10, 10, 10, 10, 1⟩], rfl, by decide⟩)
    (by decide)

end Backtest
